import Mathlib

set_option maxHeartbeats 1000000

/-!
Verification of the Xiaomi Mi Smart Plug UDP client (`xiaomi.go`).

Bytes are modelled as natural numbers (producers keep them below 256);
byte slices are `List Nat`.  The external library primitives used by the
client — `crypto/md5` (`md5.Sum`), the AES block cipher obtained from
`crypto/aes` (`aes.NewCipher`), and `encoding/json` unmarshalling of the
reply structure — are not part of this repository, so they enter the
embedding as parameters (`Primitives`), constrained only by the
properties the Go standard library guarantees (`GoodPrims`): MD5 returns
16 bytes, AES with a 16-byte key maps 16-byte blocks to 16-byte blocks,
and AES decryption inverts AES encryption.  Everything else — CBC
chaining, PKCS7 padding and stripping, packet framing, hex token
decoding, and the discovery/command network exchanges — is translated
directly from the source.

Network I/O is modelled by an oracle (`Conn`/`Net`) giving the outcome
of each dial, write, and read, and every operation returns its result
together with the list of network events (`Ev`) it performed, so that
"no network activity" is expressible as an empty event list.
-/

/-- External cryptographic and JSON primitives used by `xiaomi.go`:
`md5` models `md5.Sum`, `aesEnc key`/`aesDec key` model one-block
encryption/decryption by the cipher `aes.NewCipher(key)`, and
`jsonParse` models `json.Unmarshal` into `struct { Result []string }`
(`none` = unmarshal error, `some r` = the decoded `result` array). -/
structure Primitives where
  md5 : List Nat → List Nat
  aesEnc : List Nat → List Nat → List Nat
  aesDec : List Nat → List Nat → List Nat
  jsonParse : List Nat → Option (List String)

/-- Properties of the real library primitives: MD5 digests are 16 bytes,
AES on a 16-byte key maps 16-byte blocks to 16-byte blocks, and AES
decryption inverts encryption blockwise. -/
structure GoodPrims (P : Primitives) : Prop where
  md5_len : ∀ x, (P.md5 x).length = 16
  aesEnc_len : ∀ key b, key.length = 16 → b.length = 16 → (P.aesEnc key b).length = 16
  aes_dec_enc : ∀ key b, key.length = 16 → b.length = 16 → P.aesDec key (P.aesEnc key b) = b

/-- Model of `md5sum` (xiaomi.go lines 225-228). -/
def md5sum (P : Primitives) (data : List Nat) : List Nat :=
  P.md5 data

/-- Key sizes accepted by `aes.NewCipher` (16, 24 or 32 bytes). -/
def aesKeySizeOk (n : Nat) : Bool :=
  n == 16 || n == 24 || n == 32

/-- Bytewise XOR of two blocks (the CBC combining step). -/
def xorBytes (a b : List Nat) : List Nat :=
  List.zipWith Nat.xor a b

/-- Splits a byte list into 16-byte chunks; `fuel` bounds the recursion
(callers pass the list length, which always suffices). -/
def chunksF : Nat → List Nat → List (List Nat)
  | _, [] => []
  | 0, _ => []
  | fuel + 1, l => l.take 16 :: chunksF fuel (l.drop 16)

/-- Splits a byte list into 16-byte chunks (the block view of a buffer
processed by `CryptBlocks`). -/
def chunks16 (l : List Nat) : List (List Nat) :=
  chunksF l.length l

/-- CBC encryption over a list of blocks: each plaintext block is XORed
with the previous ciphertext block (initially the IV) and then encrypted
(`cipher.NewCBCEncrypter(block, iv).CryptBlocks`). -/
def cbcEncBlocks (E : List Nat → List Nat) : List Nat → List (List Nat) → List (List Nat)
  | _, [] => []
  | iv, b :: bs =>
    let c := E (xorBytes iv b)
    c :: cbcEncBlocks E c bs

/-- CBC decryption over a list of blocks
(`cipher.NewCBCDecrypter(block, iv).CryptBlocks`). -/
def cbcDecBlocks (D : List Nat → List Nat) : List Nat → List (List Nat) → List (List Nat)
  | _, [] => []
  | iv, c :: cs => xorBytes iv (D c) :: cbcDecBlocks D c cs

/-- CBC encryption of a block-aligned buffer. -/
def cbcEncrypt (E : List Nat → List Nat) (iv data : List Nat) : List Nat :=
  (cbcEncBlocks E iv (chunks16 data)).flatten

/-- CBC decryption of a block-aligned buffer. -/
def cbcDecrypt (D : List Nat → List Nat) (iv data : List Nat) : List Nat :=
  (cbcDecBlocks D iv (chunks16 data)).flatten

/-- PKCS7 padding as in `encryptPayload` (xiaomi.go lines 183-189):
pad length `16 - len % 16` (a full block when already aligned), each pad
byte holding the pad length. -/
def pkcs7pad (data : List Nat) : List Nat :=
  let padding := 16 - data.length % 16
  data ++ List.replicate padding padding

/-- PKCS7 pad stripping as in `decryptPayload` (xiaomi.go lines 215-221):
the last byte is read as the pad length and stripped only when
`0 < pad ≤ 16` and `pad ≤ len`; otherwise the buffer is returned
untouched. -/
def stripPkcs7 (plaintext : List Nat) : List Nat :=
  if plaintext.length > 0 then
    let pad := plaintext.getLastD 0
    if 0 < pad ∧ pad ≤ 16 ∧ pad ≤ plaintext.length then
      plaintext.take (plaintext.length - pad)
    else plaintext
  else plaintext

/-- Errors produced by the client, one constructor per `return`-an-error
site; `discovery` and `decrypting` model the `fmt.Errorf("...: %w", err)`
wrappings in `setSwitch`/`getSwitch`. -/
inductive Err where
  | tokenDecode
  | dial
  | send
  | read
  | helloShort
  | badKeySize
  | notBlockAligned
  | replyTooShort (n : Nat)
  | parseResponse
  | noPowerState
  | discovery (e : Err)
  | decrypting (e : Err)
deriving DecidableEq, Repr

/-- Body of `encryptPayload` after key/IV derivation (xiaomi.go lines
183-197): PKCS7-pad, construct the cipher (failing on a bad key size),
CBC-encrypt. -/
def cbcEncryptPadded (P : Primitives) (key iv data : List Nat) : Except Err (List Nat) :=
  let padded := pkcs7pad data
  if aesKeySizeOk key.length then
    .ok (cbcEncrypt (P.aesEnc key) iv padded)
  else
    .error .badKeySize

/-- Model of `encryptPayload` (xiaomi.go lines 179-198).  The source
inlines the key/IV derivation: `key := md5sum(token);
iv := md5sum(append(key, token...))`. -/
def encryptPayload (P : Primitives) (data token : List Nat) : Except Err (List Nat) :=
  let key := md5sum P token
  let iv := md5sum P (key ++ token)
  cbcEncryptPadded P key iv data

/-- Body of `decryptPayload` after key/IV derivation (xiaomi.go lines
205-222): reject non-block-aligned input, construct the cipher,
CBC-decrypt, strip padding. -/
def cbcDecryptStrip (P : Primitives) (key iv encryptedData : List Nat) : Except Err (List Nat) :=
  if encryptedData.length % 16 ≠ 0 then
    .error .notBlockAligned
  else if aesKeySizeOk key.length then
    .ok (stripPkcs7 (cbcDecrypt (P.aesDec key) iv encryptedData))
  else
    .error .badKeySize

/-- Model of `decryptPayload` (xiaomi.go lines 201-223), deriving key and
IV exactly as `encryptPayload` does. -/
def decryptPayload (P : Primitives) (encryptedData token : List Nat) : Except Err (List Nat) :=
  let key := md5sum P token
  let iv := md5sum P (key ++ token)
  cbcDecryptStrip P key iv encryptedData

/-- Modelled from the spec: the `deriveKeyIV(token) -> (key, iv)`
contract of §4.1 — key = MD5(token), iv = MD5(key ‖ token).  The source
has no such function; both `encryptPayload` and `decryptPayload` inline
the same two lines. -/
def deriveKeyIV (P : Primitives) (token : List Nat) : List Nat × List Nat :=
  (P.md5 token, P.md5 (P.md5 token ++ token))

/-- Semantics of Go `copy(dst[..], src)` into an `n`-byte zeroed region:
`min n src.length` bytes are copied, the rest stay zero. -/
def copyInto (n : Nat) (src : List Nat) : List Nat :=
  src.take n ++ List.replicate (n - src.length) 0

/-- Model of `buildPacket` (xiaomi.go lines 157-176): magic `0x21 0x31`,
big-endian 16-bit total length, 4 reserved zero bytes, device id, stamp,
then the MD5 checksum of header[0:16] ‖ token ‖ payload, then the
payload. -/
def buildPacket (P : Primitives) (token deviceID stamp encryptedData : List Nat) : List Nat :=
  let len16 := (32 + encryptedData.length) % 65536
  let header := [0x21, 0x31, len16 / 256, len16 % 256, 0, 0, 0, 0]
      ++ copyInto 4 deviceID ++ copyInto 4 stamp
  let checksum := copyInto 16 (P.md5 (header ++ token ++ encryptedData))
  header ++ checksum ++ encryptedData

/-- Hex digit value, as accepted by `encoding/hex` (`0-9`, `a-f`, `A-F`). -/
def hexVal? (c : Char) : Option Nat :=
  if '0' ≤ c ∧ c ≤ '9' then some (c.toNat - '0'.toNat)
  else if 'a' ≤ c ∧ c ≤ 'f' then some (c.toNat - 'a'.toNat + 10)
  else if 'A' ≤ c ∧ c ≤ 'F' then some (c.toNat - 'A'.toNat + 10)
  else none

/-- Model of `hex.DecodeString`: pairs of hex digits become bytes; an
odd-length input or any non-hex character is an error (`none`). -/
def hexDecode : List Char → Option (List Nat)
  | [] => some []
  | [_] => none
  | a :: b :: rest =>
    match hexVal? a, hexVal? b, hexDecode rest with
    | some hi, some lo, some tl => some ((16 * hi + lo) :: tl)
    | _, _, _ => none

/-- Bytes of a string (all command JSON is ASCII). -/
def strBytes (s : String) : List Nat :=
  s.data.map Char.toNat

/-- JSON produced by `json.Marshal` for the `set_power` command map
(Go marshals map keys in sorted order: id, method, params). -/
def setPowerJson (powerOn : Bool) : List Nat :=
  if powerOn then
    strBytes "\x7b\"id\":1,\"method\":\"set_power\",\"params\":[\"on\"]\x7d"
  else
    strBytes "\x7b\"id\":1,\"method\":\"set_power\",\"params\":[\"off\"]\x7d"

/-- JSON produced by `json.Marshal` for the `get_prop` command map. -/
def getPropJson : List Nat :=
  strBytes "\x7b\"id\":1,\"method\":\"get_prop\",\"params\":[\"power\"]\x7d"

/-- The fixed 32-byte hello frame (xiaomi.go lines 92-99). -/
def helloPacket : List Nat :=
  [0x21, 0x31, 0x00, 0x20] ++ List.replicate 28 0xFF

/-- Network events performed by an operation: opening a UDP socket,
writing a datagram, reading one. -/
inductive Ev where
  | dial
  | send (pkt : List Nat)
  | recv
deriving DecidableEq, Repr

/-- Oracle for one UDP connection: whether `DialTimeout` succeeds,
whether `Write` succeeds, and what `Read` returns (`none` = read error
or timeout, `some buf` = the received datagram). -/
structure Conn where
  dialOk : Bool
  sendOk : Bool
  reply : Option (List Nat)

/-- Oracles for the two connections a top-level operation opens: the
discovery exchange and the command exchange. -/
structure Net where
  disc : Conn
  cmd : Conn

/-- Model of `discoverDevice` (xiaomi.go lines 91-118): dial, send the
hello frame, read; a reply shorter than 16 bytes is an error, otherwise
device id = bytes [8:12] and stamp = bytes [12:16]. -/
def discoverDevice (c : Conn) : Except Err (List Nat × List Nat) × List Ev :=
  if ¬ c.dialOk then (.error .dial, [])
  else if ¬ c.sendOk then (.error .send, [.dial])
  else
    match c.reply with
    | none => (.error .read, [.dial, .send helloPacket])
    | some buf =>
      if buf.length < 16 then
        (.error .helloShort, [.dial, .send helloPacket, .recv])
      else
        (.ok ((buf.drop 8).take 4, (buf.drop 12).take 4),
         [.dial, .send helloPacket, .recv])

/-- Model of `setPower` (xiaomi.go lines 121-154): marshal the
`set_power` command, encrypt, frame, dial, write; a read is attempted
but its outcome is discarded and success is returned once the write
succeeded. -/
def setPower (P : Primitives) (c : Conn) (token deviceID stamp : List Nat)
    (powerOn : Bool) : Except Err Unit × List Ev :=
  let jsonData := setPowerJson powerOn
  match encryptPayload P jsonData token with
  | .error e => (.error e, [])
  | .ok encrypted =>
    let packet := buildPacket P token deviceID stamp encrypted
    if ¬ c.dialOk then (.error .dial, [])
    else if ¬ c.sendOk then (.error .send, [.dial])
    else (.ok (), [.dial, .send packet, .recv])

/-- Model of `setSwitch` (xiaomi.go lines 18-28): decode the hex token,
discover, then `setPower`.  The `host` argument only selects the peer
and is absorbed by the network oracle. -/
def setSwitch (P : Primitives) (net : Net) (token : String) (powerOn : Bool) :
    Except Err Unit × List Ev :=
  match hexDecode token.data with
  | none => (.error .tokenDecode, [])
  | some tokenBytes =>
    match discoverDevice net.disc with
    | (.error e, evs) => (.error (.discovery e), evs)
    | (.ok (deviceID, stamp), evs) =>
      let r := setPower P net.cmd tokenBytes deviceID stamp powerOn
      (r.1, evs ++ r.2)

/-- Model of `getSwitch` (xiaomi.go lines 31-88): decode the hex token,
discover, send the encrypted `get_prop` command, then require a reply of
at least 32 bytes, decrypt bytes [32:n], JSON-parse the plaintext, and
interpret the first element of the `result` array (`"on"` ↦ true). -/
def getSwitch (P : Primitives) (net : Net) (token : String) :
    Except Err Bool × List Ev :=
  match hexDecode token.data with
  | none => (.error .tokenDecode, [])
  | some tokenBytes =>
    match discoverDevice net.disc with
    | (.error e, evs) => (.error (.discovery e), evs)
    | (.ok (deviceID, stamp), evs) =>
      match encryptPayload P getPropJson tokenBytes with
      | .error e => (.error e, evs)
      | .ok encrypted =>
        let packet := buildPacket P tokenBytes deviceID stamp encrypted
        let c := net.cmd
        if ¬ c.dialOk then (.error .dial, evs)
        else if ¬ c.sendOk then (.error .send, evs ++ [.dial])
        else
          match c.reply with
          | none => (.error .read, evs ++ [.dial, .send packet])
          | some buf =>
            let evs2 := evs ++ [.dial, .send packet, .recv]
            if buf.length < 32 then
              (.error (.replyTooShort buf.length), evs2)
            else
              match decryptPayload P (buf.drop 32) tokenBytes with
              | .error e => (.error (.decrypting e), evs2)
              | .ok decrypted =>
                match P.jsonParse decrypted with
                | none => (.error .parseResponse, evs2)
                | some result =>
                  match result with
                  | [] => (.error .noPowerState, evs2)
                  | r :: _ => (.ok (r == "on"), evs2)

/-- Concrete primitives used to instantiate witnesses: a constant
16-byte digest, the identity block cipher, and a parser that always
fails.  They satisfy `GoodPrims`. -/
def trivPrims : Primitives where
  md5 := fun _ => List.replicate 16 0
  aesEnc := fun _ b => b
  aesDec := fun _ b => b
  jsonParse := fun _ => none

/-- Concrete primitives whose parser reports `["on"]` on every input. -/
def onPrims : Primitives where
  md5 := fun _ => List.replicate 16 0
  aesEnc := fun _ b => b
  aesDec := fun _ b => b
  jsonParse := fun _ => some ["on"]

/-- A 32-character hex token used by witnesses. -/
def tokHex : String :=
  "000102030405060708090a0b0c0d0e0f"

/-- The bytes `tokHex` decodes to. -/
def tokBytes : List Nat :=
  [0, 1, 2, 3, 4, 5, 6, 7, 8, 9, 10, 11, 12, 13, 14, 15]

/-- A well-formed 32-byte hello reply used by witnesses: device id
`[1, 2, 3, 4]`, stamp `[5, 6, 7, 8]`. -/
def helloReply : List Nat :=
  [0, 0, 0, 0, 0, 0, 0, 0, 1, 2, 3, 4, 5, 6, 7, 8]
    ++ List.replicate 16 0

/-! Helper lemmas about blocks, chunking, CBC, and padding. -/

lemma xorBytes_length (a b : List Nat) : (xorBytes a b).length = min a.length b.length := by
  simp [xorBytes]

lemma xorBytes_xorBytes (a : List Nat) : ∀ b : List Nat, a.length = b.length →
    xorBytes a (xorBytes a b) = b := by
  induction a with
  | nil =>
    intro b hb
    have : b = [] := (List.eq_nil_of_length_eq_zero hb.symm)
    simp [this, xorBytes]
  | cons x xs ih =>
    intro b hb
    match b with
    | [] => simp at hb
    | y :: ys =>
      simp only [xorBytes, List.zipWith_cons_cons] at *
      rw [show Nat.xor x (Nat.xor x y) = y from Nat.xor_cancel_left x y]
      exact congrArg _ (ih ys (by simpa using hb))

lemma chunksF_flatten : ∀ (n : Nat) (l : List Nat), l.length ≤ n →
    (chunksF n l).flatten = l := by
  intro n
  induction n with
  | zero =>
    intro l hl
    have : l = [] := List.eq_nil_of_length_eq_zero (Nat.le_zero.mp hl)
    subst this
    rfl
  | succ n ih =>
    intro l hl
    match l with
    | [] => rfl
    | a :: rest =>
      simp only [chunksF, List.flatten_cons]
      rw [ih _ (by simp only [List.length_drop, List.length_cons] at *; omega)]
      exact List.take_append_drop 16 (a :: rest)

lemma chunks16_flatten (l : List Nat) : (chunks16 l).flatten = l :=
  chunksF_flatten l.length l le_rfl

lemma chunksF_all16 : ∀ (n : Nat) (l : List Nat), l.length ≤ n → l.length % 16 = 0 →
    ∀ b ∈ chunksF n l, b.length = 16 := by
  intro n
  induction n with
  | zero =>
    intro l hl _ b hb
    have : l = [] := List.eq_nil_of_length_eq_zero (Nat.le_zero.mp hl)
    subst this
    simp [chunksF] at hb
  | succ n ih =>
    intro l hl hmod b hb
    match l with
    | [] => simp [chunksF] at hb
    | a :: rest =>
      simp only [List.length_cons] at hl hmod
      simp only [chunksF, List.mem_cons] at hb
      rcases hb with rfl | hb
      · simp only [List.length_take, List.length_cons]
        omega
      · exact ih _ (by simp only [List.length_drop, List.length_cons]; omega)
          (by simp only [List.length_drop, List.length_cons]; omega) b hb

lemma chunks16_all16 (l : List Nat) (hmod : l.length % 16 = 0) :
    ∀ b ∈ chunks16 l, b.length = 16 :=
  chunksF_all16 l.length l le_rfl hmod

lemma chunksF_flatten_blocks : ∀ (bs : List (List Nat)) (n : Nat),
    (∀ b ∈ bs, b.length = 16) → bs.flatten.length ≤ n → chunksF n bs.flatten = bs := by
  intro bs
  induction bs with
  | nil => intro n _ _; simp [chunksF]
  | cons b rest ih =>
    intro n hall hlen
    have hb : b.length = 16 := hall b (by simp)
    obtain ⟨a, b', rfl⟩ : ∃ a b', b = a :: b' := by
      cases b with
      | nil => simp at hb
      | cons a b' => exact ⟨a, b', rfl⟩
    simp only [List.flatten_cons, List.length_append, hb] at hlen ⊢
    match n with
    | 0 => omega
    | n + 1 =>
      have hcons : (a :: b') ++ rest.flatten = a :: (b' ++ rest.flatten) := rfl
      rw [hcons]
      simp only [chunksF]
      rw [← hcons, ← hb, List.take_left, List.drop_left]
      rw [ih n (fun x hx => hall x (by simp [hx])) (by simp only [List.length_cons] at hlen hb ⊢; omega)]

lemma chunks16_flatten_blocks (bs : List (List Nat)) (hall : ∀ b ∈ bs, b.length = 16) :
    chunks16 bs.flatten = bs :=
  chunksF_flatten_blocks bs bs.flatten.length hall le_rfl

lemma cbcEncBlocks_all16 (E : List Nat → List Nat)
    (hE : ∀ b, b.length = 16 → (E b).length = 16) :
    ∀ (bs : List (List Nat)) (iv : List Nat), iv.length = 16 →
    (∀ b ∈ bs, b.length = 16) → ∀ c ∈ cbcEncBlocks E iv bs, c.length = 16 := by
  intro bs
  induction bs with
  | nil => intro iv _ _ c hc; simp [cbcEncBlocks] at hc
  | cons b rest ih =>
    intro iv hiv hall c hc
    have hb : b.length = 16 := hall b (by simp)
    have hx : (xorBytes iv b).length = 16 := by
      simp [xorBytes_length, hiv, hb]
    simp only [cbcEncBlocks, List.mem_cons] at hc
    rcases hc with rfl | hc
    · exact hE _ hx
    · exact ih (E (xorBytes iv b)) (hE _ hx) (fun x hx' => hall x (by simp [hx'])) c hc

lemma cbcEncBlocks_length (E : List Nat → List Nat) :
    ∀ (bs : List (List Nat)) (iv : List Nat),
    (cbcEncBlocks E iv bs).length = bs.length := by
  intro bs
  induction bs with
  | nil => intro iv; rfl
  | cons b rest ih => intro iv; simp only [cbcEncBlocks, List.length_cons, ih]

lemma flatten_all16_length : ∀ bs : List (List Nat),
    (∀ b ∈ bs, b.length = 16) → bs.flatten.length = 16 * bs.length := by
  intro bs
  induction bs with
  | nil => intro _; rfl
  | cons b rest ih =>
    intro hall
    simp only [List.flatten_cons, List.length_append, List.length_cons,
      hall b (by simp), ih (fun x hx => hall x (by simp [hx]))]
    ring

lemma cbcDecBlocks_cbcEncBlocks (E D : List Nat → List Nat)
    (hE : ∀ b, b.length = 16 → (E b).length = 16)
    (hDE : ∀ b, b.length = 16 → D (E b) = b) :
    ∀ (bs : List (List Nat)) (iv : List Nat), iv.length = 16 →
    (∀ b ∈ bs, b.length = 16) →
    cbcDecBlocks D iv (cbcEncBlocks E iv bs) = bs := by
  intro bs
  induction bs with
  | nil => intro iv _ _; rfl
  | cons b rest ih =>
    intro iv hiv hall
    have hb : b.length = 16 := hall b (by simp)
    have hx : (xorBytes iv b).length = 16 := by
      simp [xorBytes_length, hiv, hb]
    simp only [cbcEncBlocks, cbcDecBlocks]
    rw [hDE _ hx, xorBytes_xorBytes iv b (by omega)]
    exact congrArg _ (ih (E (xorBytes iv b)) (hE _ hx) (fun x hx' => hall x (by simp [hx'])))

lemma cbcEncrypt_length (E : List Nat → List Nat)
    (hE : ∀ b, b.length = 16 → (E b).length = 16)
    (iv : List Nat) (hiv : iv.length = 16)
    (l : List Nat) (hmod : l.length % 16 = 0) :
    (cbcEncrypt E iv l).length = l.length := by
  have hall := chunks16_all16 l hmod
  have h1 : (cbcEncBlocks E iv (chunks16 l)).flatten.length
      = 16 * (cbcEncBlocks E iv (chunks16 l)).length :=
    flatten_all16_length _ (cbcEncBlocks_all16 E hE (chunks16 l) iv hiv hall)
  have h2 : l.length = 16 * (chunks16 l).length := by
    conv_lhs => rw [← chunks16_flatten l]
    exact flatten_all16_length _ hall
  rw [cbcEncrypt, h1, cbcEncBlocks_length, ← h2]

lemma cbcDecrypt_cbcEncrypt (E D : List Nat → List Nat)
    (hE : ∀ b, b.length = 16 → (E b).length = 16)
    (hDE : ∀ b, b.length = 16 → D (E b) = b)
    (iv : List Nat) (hiv : iv.length = 16)
    (l : List Nat) (hmod : l.length % 16 = 0) :
    cbcDecrypt D iv (cbcEncrypt E iv l) = l := by
  have hall := chunks16_all16 l hmod
  rw [cbcDecrypt, cbcEncrypt,
    chunks16_flatten_blocks _ (cbcEncBlocks_all16 E hE (chunks16 l) iv hiv hall),
    cbcDecBlocks_cbcEncBlocks E D hE hDE (chunks16 l) iv hiv hall,
    chunks16_flatten]

lemma pkcs7pad_length (data : List Nat) :
    (pkcs7pad data).length = data.length + (16 - data.length % 16) := by
  simp [pkcs7pad]

lemma pkcs7pad_length_mod (data : List Nat) : (pkcs7pad data).length % 16 = 0 := by
  have := pkcs7pad_length data
  have : data.length % 16 < 16 := Nat.mod_lt _ (by norm_num)
  omega

lemma getLastD_append_replicate (l : List Nat) (p : Nat) (hp : 1 ≤ p) :
    (l ++ List.replicate p p).getLastD 0 = p := by
  match p, hp with
  | p + 1, _ =>
    rw [List.replicate_succ', ← List.append_assoc]
    exact List.getLastD_concat _ _ _

lemma stripPkcs7_pkcs7pad (data : List Nat) : stripPkcs7 (pkcs7pad data) = data := by
  have hlt : data.length % 16 < 16 := Nat.mod_lt _ (by norm_num)
  have hlen : (pkcs7pad data).length = data.length + (16 - data.length % 16) :=
    pkcs7pad_length data
  have hpad : pkcs7pad data
      = data ++ List.replicate (16 - data.length % 16) (16 - data.length % 16) := rfl
  have hlast : (pkcs7pad data).getLastD 0 = 16 - data.length % 16 := by
    rw [hpad]; exact getLastD_append_replicate _ _ (by omega)
  simp only [stripPkcs7, hlast]
  rw [if_pos (show (pkcs7pad data).length > 0 by omega)]
  rw [if_pos (show 0 < 16 - data.length % 16 ∧ 16 - data.length % 16 ≤ 16 ∧
    16 - data.length % 16 ≤ (pkcs7pad data).length by omega)]
  rw [hlen]
  rw [show data.length + (16 - data.length % 16) - (16 - data.length % 16)
    = data.length from by omega]
  rw [hpad, List.take_left]

lemma stripPkcs7_eq (pt : List Nat) :
    stripPkcs7 pt =
      (let pad := pt.getLastD 0
       if 0 < pad ∧ pad ≤ 16 ∧ pad ≤ pt.length then pt.take (pt.length - pad) else pt) := by
  rcases pt with _ | ⟨a, rest⟩
  · simp [stripPkcs7]
  · simp only [stripPkcs7]
    rw [if_pos (by simp)]

lemma encryptPayload_eq (P : Primitives) (hP : GoodPrims P) (data token : List Nat) :
    encryptPayload P data token =
      .ok (cbcEncrypt (P.aesEnc (P.md5 token)) (P.md5 (P.md5 token ++ token))
        (pkcs7pad data)) := by
  simp [encryptPayload, cbcEncryptPadded, md5sum, aesKeySizeOk, hP.md5_len]

lemma decryptPayload_eq (P : Primitives) (hP : GoodPrims P) (ct token : List Nat)
    (hmod : ct.length % 16 = 0) :
    decryptPayload P ct token =
      .ok (stripPkcs7 (cbcDecrypt (P.aesDec (P.md5 token))
        (P.md5 (P.md5 token ++ token)) ct)) := by
  simp [decryptPayload, cbcDecryptStrip, md5sum, aesKeySizeOk, hP.md5_len, hmod]

lemma trivPrims_good : GoodPrims trivPrims := by
  constructor
  · intro x; simp [trivPrims]
  · intro key b _ hb; simpa [trivPrims] using hb
  · intro key b _ _; rfl

lemma onPrims_good : GoodPrims onPrims := by
  constructor
  · intro x; simp [onPrims]
  · intro key b _ hb; simpa [onPrims] using hb
  · intro key b _ _; rfl

/-! Claim theorems. -/

/-- C1: for every byte sequence `data` (including the empty sequence)
and every 16-byte token, `decryptPayload (encryptPayload data token)
token` succeeds and returns exactly `data`, for any primitives
satisfying the guarantees of the real MD5 and AES. -/
theorem c1_encrypt_decrypt_roundtrip (P : Primitives) (hP : GoodPrims P)
    (data token : List Nat) (htok : token.length = 16) :
    ∃ ct, encryptPayload P data token = .ok ct ∧
      decryptPayload P ct token = .ok data := by
  have hkey : (P.md5 token).length = 16 := hP.md5_len token
  have hiv : (P.md5 (P.md5 token ++ token)).length = 16 := hP.md5_len _
  have hE : ∀ b : List Nat, b.length = 16 → (P.aesEnc (P.md5 token) b).length = 16 :=
    fun b hb => hP.aesEnc_len _ b hkey hb
  have hDE : ∀ b : List Nat, b.length = 16 →
      P.aesDec (P.md5 token) (P.aesEnc (P.md5 token) b) = b :=
    fun b hb => hP.aes_dec_enc _ b hkey hb
  have hpadmod := pkcs7pad_length_mod data
  have hctmod : (cbcEncrypt (P.aesEnc (P.md5 token))
      (P.md5 (P.md5 token ++ token)) (pkcs7pad data)).length % 16 = 0 := by
    rw [cbcEncrypt_length _ hE _ hiv _ hpadmod]; exact hpadmod
  refine ⟨_, encryptPayload_eq P hP data token, ?_⟩
  rw [decryptPayload_eq P hP _ token hctmod,
    cbcDecrypt_cbcEncrypt _ _ hE hDE _ hiv _ hpadmod,
    stripPkcs7_pkcs7pad data]

/-- Witness for C1 at a concrete plaintext and token. -/
theorem c1_witness :
    ∃ ct, encryptPayload trivPrims [1, 2, 3] tokBytes = .ok ct ∧
      decryptPayload trivPrims ct tokBytes = .ok [1, 2, 3] :=
  c1_encrypt_decrypt_roundtrip trivPrims trivPrims_good [1, 2, 3] tokBytes (by decide)

/-- C9: the ciphertext produced for a plaintext of length `L` has length
`L + (16 − L mod 16)`; in particular, when `L` is an exact multiple of
16 the pad is a full extra block of bytes of value 16 and the ciphertext
length is `L + 16`. -/
theorem c9_ciphertext_length (P : Primitives) (hP : GoodPrims P)
    (data token : List Nat) (htok : token.length = 16) :
    ∃ ct, encryptPayload P data token = .ok ct ∧
      ct.length = data.length + (16 - data.length % 16) ∧
      (data.length % 16 = 0 →
        pkcs7pad data = data ++ List.replicate 16 16 ∧
        ct.length = data.length + 16) := by
  have hlen : (cbcEncrypt (P.aesEnc (P.md5 token))
      (P.md5 (P.md5 token ++ token)) (pkcs7pad data)).length
      = data.length + (16 - data.length % 16) := by
    rw [cbcEncrypt_length _ (fun b hb => hP.aesEnc_len _ b (hP.md5_len token) hb)
      _ (hP.md5_len _) _ (pkcs7pad_length_mod data)]
    exact pkcs7pad_length data
  exact ⟨_, encryptPayload_eq P hP data token, hlen,
    fun h0 => ⟨by simp [pkcs7pad, h0], by omega⟩⟩

/-- Witness for C9 at the empty plaintext (a multiple of the block
size), showing the full extra pad block. -/
theorem c9_witness :
    ∃ ct, encryptPayload trivPrims [] tokBytes = .ok ct ∧
      ct.length = 0 + (16 - 0 % 16) ∧
      ((0 : Nat) % 16 = 0 →
        pkcs7pad [] = [] ++ List.replicate 16 16 ∧
        ct.length = 0 + 16) :=
  c9_ciphertext_length trivPrims trivPrims_good [] tokBytes (by decide)

/-- C6: on block-aligned ciphertext `decryptPayload` succeeds without
error, strips `pad` trailing bytes exactly when the last byte `pad` of
the CBC plaintext satisfies `1 ≤ pad ≤ 16` and `pad ≤ length`, and
otherwise returns the plaintext with the padding bytes untouched. -/
theorem c6_padding_strip (P : Primitives) (hP : GoodPrims P)
    (ct token : List Nat) (hmod : ct.length % 16 = 0) (htok : token.length = 16) :
    decryptPayload P ct token =
      .ok (let pt := cbcDecrypt (P.aesDec (P.md5 token))
             (P.md5 (P.md5 token ++ token)) ct
           let pad := pt.getLastD 0
           if 0 < pad ∧ pad ≤ 16 ∧ pad ≤ pt.length then
             pt.take (pt.length - pad)
           else pt) := by
  rw [decryptPayload_eq P hP ct token hmod]
  exact congrArg _ (stripPkcs7_eq _)

/-- Witness for C6 at an all-zero aligned ciphertext (pad byte 0, so the
plaintext is returned untouched). -/
theorem c6_witness :
    decryptPayload trivPrims (List.replicate 16 0) tokBytes
      = .ok (List.replicate 16 0) :=
  c6_padding_strip trivPrims trivPrims_good (List.replicate 16 0) tokBytes
    (by decide) (by decide)

/-- C8: the derived cipher key equals MD5(token) and the IV equals
MD5(key ‖ token); `encryptPayload` and `decryptPayload` both factor
through exactly this derived pair (and derivation is a pure function of
the token, so repeated derivation is identical). -/
theorem c8_key_iv_derivation (P : Primitives) (token : List Nat)
    (htok : token.length = 16) :
    (deriveKeyIV P token).1 = md5sum P token ∧
    (deriveKeyIV P token).2 = md5sum P ((deriveKeyIV P token).1 ++ token) ∧
    (∀ data, encryptPayload P data token =
      cbcEncryptPadded P (deriveKeyIV P token).1 (deriveKeyIV P token).2 data) ∧
    (∀ ct, decryptPayload P ct token =
      cbcDecryptStrip P (deriveKeyIV P token).1 (deriveKeyIV P token).2 ct) :=
  ⟨rfl, rfl, fun _ => rfl, fun _ => rfl⟩

/-- Witness for C8 at a concrete token. -/
theorem c8_witness :
    (deriveKeyIV trivPrims tokBytes).1 = md5sum trivPrims tokBytes ∧
    (deriveKeyIV trivPrims tokBytes).2
      = md5sum trivPrims ((deriveKeyIV trivPrims tokBytes).1 ++ tokBytes) ∧
    (∀ data, encryptPayload trivPrims data tokBytes =
      cbcEncryptPadded trivPrims (deriveKeyIV trivPrims tokBytes).1
        (deriveKeyIV trivPrims tokBytes).2 data) ∧
    (∀ ct, decryptPayload trivPrims ct tokBytes =
      cbcDecryptStrip trivPrims (deriveKeyIV trivPrims tokBytes).1
        (deriveKeyIV trivPrims tokBytes).2 ct) :=
  c8_key_iv_derivation trivPrims tokBytes (by decide)

lemma hexDecode_none_aux : ∀ (n : Nat) (l : List Char), l.length ≤ n →
    (l.length % 2 = 1 ∨ ∃ c ∈ l, hexVal? c = none) → hexDecode l = none := by
  intro n
  induction n with
  | zero =>
    intro l hl h
    have : l = [] := List.eq_nil_of_length_eq_zero (Nat.le_zero.mp hl)
    subst this
    rcases h with h | ⟨c, hc, _⟩
    · simp at h
    · simp at hc
  | succ n ih =>
    intro l hl h
    match l with
    | [] =>
      rcases h with h | ⟨c, hc, _⟩
      · simp at h
      · simp at hc
    | [a] => rfl
    | a :: b :: rest =>
      simp only [List.length_cons] at hl
      rcases ha : hexVal? a with _ | hi
      · simp [hexDecode, ha]
      rcases hb : hexVal? b with _ | lo
      · simp [hexDecode, ha, hb]
      have hr : hexDecode rest = none := by
        apply ih rest (by omega)
        rcases h with h | ⟨c, hc, hcv⟩
        · left; simp only [List.length_cons] at h; omega
        · right
          simp only [List.mem_cons] at hc
          rcases hc with rfl | rfl | hc
          · simp [ha] at hcv
          · simp [hb] at hcv
          · exact ⟨c, hc, hcv⟩
      simp [hexDecode, ha, hb, hr]

lemma hexDecode_none_of (l : List Char)
    (h : l.length % 2 = 1 ∨ ∃ c ∈ l, hexVal? c = none) : hexDecode l = none :=
  hexDecode_none_aux l.length l le_rfl h

/-- C2 (amended): for every token string of odd length or containing a
non-hexadecimal character, both `setSwitch` and `getSwitch` return the
token-decoding error before any network activity (empty event trace).
The original claim — rejection of every string that is not exactly 32
hex characters — fails: `hex.DecodeString` accepts valid hex of any
even length, see the counterexample. -/
theorem c2_invalid_token_rejected (P : Primitives) (net : Net) (token : String)
    (powerOn : Bool)
    (h : token.data.length % 2 = 1 ∨ ∃ c ∈ token.data, hexVal? c = none) :
    setSwitch P net token powerOn = (.error .tokenDecode, []) ∧
    getSwitch P net token = (.error .tokenDecode, []) := by
  have hd := hexDecode_none_of token.data h
  exact ⟨by simp [setSwitch, hd], by simp [getSwitch, hd]⟩

/-- Witness for the amended C2 at the odd-length token "abc". -/
theorem c2_witness :
    setSwitch trivPrims ⟨⟨true, true, some helloReply⟩, ⟨true, true, none⟩⟩ "abc" false
      = (.error .tokenDecode, []) ∧
    getSwitch trivPrims ⟨⟨true, true, some helloReply⟩, ⟨true, true, none⟩⟩ "abc"
      = (.error .tokenDecode, []) :=
  c2_invalid_token_rejected trivPrims _ "abc" false (by decide)

/-- C2 counterexample: the token "ab" is not 32 hexadecimal characters,
yet with a well-behaved peer `setSwitch` succeeds (returns no error at
all) and performs network activity (a nonempty event trace), refuting
"returns an error before any network activity". -/
theorem c2_counterexample :
    (setSwitch trivPrims ⟨⟨true, true, some helloReply⟩, ⟨true, true, none⟩⟩
      "ab" true).1 = .ok () ∧
    (setSwitch trivPrims ⟨⟨true, true, some helloReply⟩, ⟨true, true, none⟩⟩
      "ab" true).2 ≠ [] := by
  constructor
  · rfl
  · decide

/-- C7: `discoverDevice` fails with an error whenever the hello reply is
shorter than 16 bytes (never returning a zero-value identity), and for
every reply of at least 16 bytes returns device id = reply bytes [8:12]
and stamp = reply bytes [12:16] — a function of those bytes alone. -/
theorem c7_discover_reply (buf : List Nat) :
    (buf.length < 16 →
      (discoverDevice ⟨true, true, some buf⟩).1 = .error .helloShort) ∧
    (16 ≤ buf.length →
      (discoverDevice ⟨true, true, some buf⟩).1
        = .ok ((buf.drop 8).take 4, (buf.drop 12).take 4)) := by
  constructor
  · intro hlt; simp [discoverDevice, hlt]
  · intro hge; simp [discoverDevice, Nat.not_lt.mpr hge]

/-- Witness for C7 at a 16-byte reply. -/
theorem c7_witness :
    (discoverDevice ⟨true, true,
      some [0, 0, 0, 0, 0, 0, 0, 0, 1, 2, 3, 4, 5, 6, 7, 8]⟩).1
      = .ok ([1, 2, 3, 4], [5, 6, 7, 8]) :=
  (c7_discover_reply [0, 0, 0, 0, 0, 0, 0, 0, 1, 2, 3, 4, 5, 6, 7, 8]).2 (by decide)

/-- C4: `setSwitch` reports success once the command packet has been
written: with discovery succeeding and the command-phase dial and write
succeeding, the result is `ok` for every read outcome `r` — including
`none`, i.e. no reply, a read failure, or a timeout. -/
theorem c4_set_fire_and_forget (P : Primitives) (hP : GoodPrims P)
    (token : String) (tb : List Nat) (hd : hexDecode token.data = some tb)
    (hbuf : List Nat) (h16 : 16 ≤ hbuf.length)
    (r : Option (List Nat)) (powerOn : Bool) :
    (setSwitch P ⟨⟨true, true, some hbuf⟩, ⟨true, true, r⟩⟩ token powerOn).1
      = .ok () := by
  simp [setSwitch, hd, discoverDevice, Nat.not_lt.mpr h16, setPower,
    encryptPayload_eq P hP]

/-- Witness for C4: a command connection whose read returns nothing. -/
theorem c4_witness :
    (setSwitch trivPrims ⟨⟨true, true, some helloReply⟩, ⟨true, true, none⟩⟩
      tokHex true).1 = .ok () :=
  c4_set_fire_and_forget trivPrims trivPrims_good tokHex tokBytes (by decide)
    helloReply (by decide) none true

/-- C5: for a reply `buf` received by `getSwitch` (with token decoding
and discovery succeeding): a reply under 32 bytes yields the too-short
error; otherwise bytes [32:n] are decrypted — a decryption error is
returned as an error, a JSON parse failure is the parse error, an empty
`result` array is the no-power-state error, and otherwise the result is
`ok` of whether the first element equals "on" (anything else gives
false). -/
theorem c5_get_reply_handling (P : Primitives) (hP : GoodPrims P)
    (token : String) (tb : List Nat) (hd : hexDecode token.data = some tb)
    (hbuf : List Nat) (h16 : 16 ≤ hbuf.length) (buf : List Nat) :
    (buf.length < 32 →
      (getSwitch P ⟨⟨true, true, some hbuf⟩, ⟨true, true, some buf⟩⟩ token).1
        = .error (.replyTooShort buf.length)) ∧
    (32 ≤ buf.length →
      (∀ e, decryptPayload P (buf.drop 32) tb = .error e →
        (getSwitch P ⟨⟨true, true, some hbuf⟩, ⟨true, true, some buf⟩⟩ token).1
          = .error (.decrypting e)) ∧
      (∀ d, decryptPayload P (buf.drop 32) tb = .ok d →
        (P.jsonParse d = none →
          (getSwitch P ⟨⟨true, true, some hbuf⟩, ⟨true, true, some buf⟩⟩ token).1
            = .error .parseResponse) ∧
        (P.jsonParse d = some [] →
          (getSwitch P ⟨⟨true, true, some hbuf⟩, ⟨true, true, some buf⟩⟩ token).1
            = .error .noPowerState) ∧
        (∀ s rest, P.jsonParse d = some (s :: rest) →
          (getSwitch P ⟨⟨true, true, some hbuf⟩, ⟨true, true, some buf⟩⟩ token).1
            = .ok (s == "on")))) := by
  have hds : discoverDevice ⟨true, true, some hbuf⟩
      = (.ok ((hbuf.drop 8).take 4, (hbuf.drop 12).take 4),
         [.dial, .send helloPacket, .recv]) := by
    simp [discoverDevice, Nat.not_lt.mpr h16]
  refine ⟨?_, ?_⟩
  · intro hlt
    simp [getSwitch, hd, hds, encryptPayload_eq P hP, hlt]
  · intro hge
    have hnlt : ¬ buf.length < 32 := by omega
    refine ⟨?_, ?_⟩
    · intro e he
      simp [getSwitch, hd, hds, encryptPayload_eq P hP, hnlt, he]
    · intro d hdec
      refine ⟨?_, ?_, ?_⟩
      · intro hp
        simp [getSwitch, hd, hds, encryptPayload_eq P hP, hnlt, hdec, hp]
      · intro hp
        simp [getSwitch, hd, hds, encryptPayload_eq P hP, hnlt, hdec, hp]
      · intro s rest hp
        simp [getSwitch, hd, hds, encryptPayload_eq P hP, hnlt, hdec, hp]

/-- Witness for C5: a 32-byte reply whose empty payload decrypts to the
empty sequence, with a parser reporting `["on"]`, yields `ok true`. -/
theorem c5_witness :
    (getSwitch onPrims ⟨⟨true, true, some helloReply⟩,
      ⟨true, true, some (List.replicate 32 0)⟩⟩ tokHex).1
      = .ok ("on" == "on") :=
  (((c5_get_reply_handling onPrims onPrims_good tokHex tokBytes (by decide)
    helloReply (by decide) (List.replicate 32 0)).2 (by decide)).2
    [] (by rfl)).2.2 "on" [] rfl

/-- C10: a reply of exactly 32 bytes passes the length check;
`decryptPayload` applied to the empty payload succeeds and returns the
empty sequence, so `getSwitch` fails at the JSON-parsing step (the
parse error, here for a parser that rejects empty input as
`encoding/json` does), not with the too-short-reply error. -/
theorem c10_empty_payload_parse_error (P : Primitives) (hP : GoodPrims P)
    (hjson : P.jsonParse [] = none)
    (token : String) (tb : List Nat) (hd : hexDecode token.data = some tb)
    (hbuf : List Nat) (h16 : 16 ≤ hbuf.length)
    (buf : List Nat) (h32 : buf.length = 32) :
    decryptPayload P [] tb = .ok [] ∧
    (getSwitch P ⟨⟨true, true, some hbuf⟩, ⟨true, true, some buf⟩⟩ token).1
      = .error .parseResponse := by
  have hds : discoverDevice ⟨true, true, some hbuf⟩
      = (.ok ((hbuf.drop 8).take 4, (hbuf.drop 12).take 4),
         [.dial, .send helloPacket, .recv]) := by
    simp [discoverDevice, Nat.not_lt.mpr h16]
  have hempty : decryptPayload P [] tb = .ok [] := by
    simp [decryptPayload, cbcDecryptStrip, md5sum, aesKeySizeOk, hP.md5_len,
      cbcDecrypt, chunks16, chunksF, cbcDecBlocks, stripPkcs7]
  have hdrop : buf.drop 32 = [] := List.drop_eq_nil_of_le (by omega)
  refine ⟨hempty, ?_⟩
  simp [getSwitch, hd, hds, encryptPayload_eq P hP, show ¬ buf.length < 32 by omega,
    hdrop, hempty, hjson]

/-- Witness for C10 at a 32-byte all-5 reply. -/
theorem c10_witness :
    decryptPayload trivPrims [] tokBytes = .ok [] ∧
    (getSwitch trivPrims ⟨⟨true, true, some helloReply⟩,
      ⟨true, true, some (List.replicate 32 5)⟩⟩ tokHex).1
      = .error .parseResponse :=
  c10_empty_payload_parse_error trivPrims trivPrims_good rfl tokHex tokBytes
    (by decide) helloReply (by decide) (List.replicate 32 5) (by decide)

lemma copyInto_length (n : Nat) (src : List Nat) : (copyInto n src).length = n := by
  simp [copyInto]
  omega

lemma copyInto_of_length (n : Nat) (src : List Nat) (h : src.length = n) :
    copyInto n src = src := by
  simp [copyInto, ← h, List.take_length]

/-- C3: `buildPacket` is a pure function of its four arguments (hence
two calls with identical arguments give byte-identical output, checksum
included); its output has length `32 + len(payload)`, the magic bytes
`0x21 0x31` at offset 0, the big-endian 16-bit value `32 + len(payload)`
at offset 2, and at offset 16 the 16-byte MD5 checksum of header bytes
[0:16] ‖ token ‖ encrypted payload. -/
theorem c3_buildPacket_layout (P : Primitives) (hP : GoodPrims P)
    (token deviceID stamp enc : List Nat) :
    (buildPacket P token deviceID stamp enc).length = 32 + enc.length ∧
    (buildPacket P token deviceID stamp enc).take 4
      = [0x21, 0x31, (32 + enc.length) % 65536 / 256,
         (32 + enc.length) % 65536 % 256] ∧
    ((buildPacket P token deviceID stamp enc).drop 16).take 16
      = P.md5 ((buildPacket P token deviceID stamp enc).take 16 ++ token ++ enc) ∧
    (buildPacket P token deviceID stamp enc).drop 32 = enc := by
  have hhl : ([0x21, 0x31, (32 + enc.length) % 65536 / 256,
      (32 + enc.length) % 65536 % 256, 0, 0, 0, 0]
      ++ copyInto 4 deviceID ++ copyInto 4 stamp).length = 16 := by
    simp [copyInto_length]
  have hck : copyInto 16 (P.md5 (([0x21, 0x31, (32 + enc.length) % 65536 / 256,
      (32 + enc.length) % 65536 % 256, 0, 0, 0, 0]
      ++ copyInto 4 deviceID ++ copyInto 4 stamp) ++ token ++ enc))
      = P.md5 (([0x21, 0x31, (32 + enc.length) % 65536 / 256,
      (32 + enc.length) % 65536 % 256, 0, 0, 0, 0]
      ++ copyInto 4 deviceID ++ copyInto 4 stamp) ++ token ++ enc) :=
    copyInto_of_length _ _ (hP.md5_len _)
  have hbp : buildPacket P token deviceID stamp enc
      = ([0x21, 0x31, (32 + enc.length) % 65536 / 256,
          (32 + enc.length) % 65536 % 256, 0, 0, 0, 0]
         ++ copyInto 4 deviceID ++ copyInto 4 stamp)
        ++ copyInto 16 (P.md5 (([0x21, 0x31, (32 + enc.length) % 65536 / 256,
            (32 + enc.length) % 65536 % 256, 0, 0, 0, 0]
            ++ copyInto 4 deviceID ++ copyInto 4 stamp) ++ token ++ enc))
        ++ enc := rfl
  have hbp2 : buildPacket P token deviceID stamp enc
      = ([0x21, 0x31, (32 + enc.length) % 65536 / 256,
          (32 + enc.length) % 65536 % 256, 0, 0, 0, 0]
         ++ copyInto 4 deviceID ++ copyInto 4 stamp)
        ++ (copyInto 16 (P.md5 (([0x21, 0x31, (32 + enc.length) % 65536 / 256,
            (32 + enc.length) % 65536 % 256, 0, 0, 0, 0]
            ++ copyInto 4 deviceID ++ copyInto 4 stamp) ++ token ++ enc))
          ++ enc) := by
    rw [hbp, List.append_assoc]
  have htake16 : (buildPacket P token deviceID stamp enc).take 16
      = ([0x21, 0x31, (32 + enc.length) % 65536 / 256,
          (32 + enc.length) % 65536 % 256, 0, 0, 0, 0]
         ++ copyInto 4 deviceID ++ copyInto 4 stamp) := by
    rw [hbp2, List.take_left' hhl]
  refine ⟨?_, ?_, ?_, ?_⟩
  · rw [hbp2]
    simp [copyInto_length, hP.md5_len]
    omega
  · rw [hbp2, List.take_append_of_le_length (by rw [hhl]; omega)]
    simp
  · rw [htake16, hbp2, List.drop_left' hhl, hck, List.take_left' (hP.md5_len _)]
  · rw [hbp]
    exact List.drop_left' (by rw [List.length_append, hhl, copyInto_length])

/-- Witness for C3 at concrete argument values. -/
theorem c3_witness :
    (buildPacket trivPrims tokBytes [1, 2, 3, 4] [5, 6, 7, 8] [9, 9]).length
      = 32 + 2 ∧
    (buildPacket trivPrims tokBytes [1, 2, 3, 4] [5, 6, 7, 8] [9, 9]).take 4
      = [0x21, 0x31, 0, 34] ∧
    ((buildPacket trivPrims tokBytes [1, 2, 3, 4] [5, 6, 7, 8] [9, 9]).drop 16).take 16
      = trivPrims.md5
        ((buildPacket trivPrims tokBytes [1, 2, 3, 4] [5, 6, 7, 8] [9, 9]).take 16
          ++ tokBytes ++ [9, 9]) ∧
    (buildPacket trivPrims tokBytes [1, 2, 3, 4] [5, 6, 7, 8] [9, 9]).drop 32
      = [9, 9] :=
  c3_buildPacket_layout trivPrims trivPrims_good tokBytes [1, 2, 3, 4] [5, 6, 7, 8] [9, 9]
